import Mathlib

/-
Formal model of the edit-activity analytics engine of wikipedia-mcp
(`wikipedia_mcp/wikipedia_client.py`): the date-range filter, the
time-window aggregator, the statistical spike detector
(`analyze_edit_activity`), and the revision-significance scorer and
ranker (`get_significant_revisions`, `_calculate_significance_score`,
`_calculate_revert_score`, `_calculate_edit_war_score`).

Modelling conventions:
- Python float arithmetic is modelled by exact rational arithmetic (ℚ).
- A revision dict is modelled by the `Revision` structure; a field that
  may be absent from the dict is an `Option`, taken with the same
  defaults the code passes to `dict.get`.
- A timestamp string together with `datetime.fromisoformat` is modelled
  by `timestamp : Option Int` (seconds since the Unix epoch, UTC):
  `some t` is a string that parses to instant `t`, `none` a string whose
  parse raises (the code logs a warning and skips the revision).
- `datetime.strftime` date formatting is modelled by an explicit
  proleptic-Gregorian civil-date computation (`civilFromDays`) plus
  zero-padded digit rendering, exactly the labels `%Y-%m-%d`,
  `%Y-%m-%d-week` and `%Y-%m` produce for UTC instants.
- Python's in-place mutation `rev['parsed_timestamp'] = rev_time` is
  modelled by `annotateRev`; the post-call state of the caller's
  revision list is `revs.map (annotateRev s e)`.
- `statistics.stdev` is the square root of the sample variance; since
  the square root of a rational is irrational, the model stores the
  sample variance (`sampleVariance`) and performs the code's comparison
  `z >= threshold` exactly with the square-free comparator `zGE`, which
  is proved equivalent to the real-valued comparison (`zGE_iff_zReal`).
-/

/-- One revision record as returned by the revision source.  Fields are the
dict keys the analytics engine reads; `parsed_timestamp` is the derived
field the engine itself attaches in place (absent, i.e. `none`, on input
from the source).  `sizediff := none` models the key holding `None`: the
source executes `rev['sizediff'] = None` on the oldest revision of every
fetched batch, so `dict.get('sizediff', 0)` returns that `None` there,
not the default. -/
structure Revision where
  revid : Int := 0
  timestamp : Option Int := none
  user : Option String := none
  size : Option Int := none
  sizediff : Option Int := none
  comment : String := ""
  parsed_timestamp : Option Int := none
deriving DecidableEq

/-! ## Date-range filter (shared prologue of both operations) -/

/-- A parsed instant `t` survives the date filter: the code skips a revision
when `rev_time < start_time` or `rev_time > end_time`. -/
def inRange (s e : Option Int) (t : Int) : Bool :=
  (match s with
   | none => true
   | some a => decide (a ≤ t)) &&
  (match e with
   | none => true
   | some b => decide (t ≤ b))

/-- Post-call state of one input revision record: the code executes
`rev['parsed_timestamp'] = rev_time` on the caller's dict exactly for the
revisions whose timestamp parses and lies in range; all other records are
left untouched. -/
def annotateRev (s e : Option Int) (r : Revision) : Revision :=
  match r.timestamp with
  | none => r
  | some t => if inRange s e t then { r with parsed_timestamp := some t } else r

/-- Whether a revision is appended to `filtered_revisions`. -/
def keptRev (s e : Option Int) (r : Revision) : Bool :=
  match r.timestamp with
  | none => false
  | some t => inRange s e t

/-- The `filtered_revisions` list both operations build: the kept revisions,
in input (newest-first) order, each carrying its parsed timestamp.  The
members are the same (mutated) records that remain in the caller's list. -/
def filterRevisions (revs : List Revision) (s e : Option Int) : List Revision :=
  (revs.map (annotateRev s e)).filter (keptRev s e)

/-- Post-call state of the caller's whole revision list after either
operation ran its filtering loop (models the in-place dict mutation). -/
def postStateRevisions (revs : List Revision) (s e : Option Int) : List Revision :=
  revs.map (annotateRev s e)

/-! ## Calendar labels (`strftime` model) -/

/-- Civil date `(year, month, day)` of a day number counted from
1970-01-01 (proleptic Gregorian, Howard Hinnant's `civil_from_days`).
Note `/` and `%` on `Int` with a positive divisor are floor division and
nonnegative remainder, as in Python. -/
def civilFromDays (z : Int) : Int × Int × Int :=
  let z' := z + 719468
  let era := z' / 146097
  let doe := z' % 146097
  let yoe := (doe - doe / 1460 + doe / 36524 - doe / 146096) / 365
  let y := yoe + era * 400
  let doy := doe - (365 * yoe + yoe / 4 - yoe / 100)
  let mp := (5 * doy + 2) / 153
  let d := doy - (153 * mp + 2) / 5 + 1
  let m := mp + (if mp < 10 then 3 else -9)
  (y + (if m ≤ 2 then 1 else 0), m, d)

/-- Two-digit zero-padded decimal rendering (`%m`, `%d`). -/
def pad2 (n : Int) : String :=
  String.mk [Nat.digitChar (n.toNat / 10 % 10), Nat.digitChar (n.toNat % 10)]

/-- Four-digit zero-padded decimal rendering (`%Y`). -/
def pad4 (n : Int) : String :=
  String.mk [Nat.digitChar (n.toNat / 1000 % 10), Nat.digitChar (n.toNat / 100 % 10),
             Nat.digitChar (n.toNat / 10 % 10), Nat.digitChar (n.toNat % 10)]

/-- Day number (floor) of an epoch instant; the UTC calendar day. -/
def daysFromEpoch (t : Int) : Int := t / 86400

/-- `timestamp.strftime('%Y-%m-%d')`. -/
def dayKey (t : Int) : String :=
  let c := civilFromDays (daysFromEpoch t)
  pad4 c.1 ++ "-" ++ pad2 c.2.1 ++ "-" ++ pad2 c.2.2

/-- `timestamp.weekday()`: Monday = 0.  1970-01-01 was a Thursday (3). -/
def weekdayOf (t : Int) : Int := (daysFromEpoch t + 3) % 7

/-- `(timestamp - timedelta(days=timestamp.weekday())).strftime('%Y-%m-%d-week')`:
the Monday of the revision's week, tagged with the `-week` suffix. -/
def weekKey (t : Int) : String :=
  let c := civilFromDays (daysFromEpoch t - weekdayOf t)
  pad4 c.1 ++ "-" ++ pad2 c.2.1 ++ "-" ++ pad2 c.2.2 ++ "-week"

/-- `timestamp.strftime('%Y-%m')`. -/
def monthKey (t : Int) : String :=
  let c := civilFromDays (daysFromEpoch t)
  pad4 c.1 ++ "-" ++ pad2 c.2.1

/-- The window label for a parsed timestamp: the code's
`if window_size == "day" ... elif "week" ... elif "month" ... else` chain
(any other value falls back to day bucketing). -/
def windowKey (windowSize : String) (t : Int) : String :=
  if windowSize = "day" then dayKey t
  else if windowSize = "week" then weekKey t
  else if windowSize = "month" then monthKey t
  else dayKey t

/-! ## Time-window aggregation -/

/-- `rev.get('user', 'Unknown')`: the author identifier counted in a
window's editor set. -/
def authorId (r : Revision) : String := r.user.getD "Unknown"

/-- One aggregated bucket of `grouped_activity`: running edit counter, the
editor set (as its insertion-ordered distinct elements) and the member
revisions in encounter order. -/
structure Window where
  edit_count : Nat
  editors : List String
  revisions : List Revision
deriving DecidableEq

/-- `set.add`: append the author if not already present. -/
def addEditor (es : List String) (a : String) : List String :=
  if a ∈ es then es else es ++ [a]

/-- The body of the grouping loop on one bucket: `edit_count += 1`,
`editors.add(author)`, `revisions.append(rev)`. -/
def bumpWindow (w : Window) (r : Revision) : Window :=
  ⟨w.edit_count + 1, addEditor w.editors (authorId r), w.revisions ++ [r]⟩

/-- Route one revision into the bucket list under key `k`: update the
existing bucket, or create a fresh one at the end (`defaultdict` creates
the empty bucket `{0, set(), []}` lazily, in first-occurrence order, and
the loop body then updates it). -/
def addToWindows (gs : List (String × Window)) (k : String) (r : Revision) :
    List (String × Window) :=
  if gs.any (fun g => g.1 = k) then
    gs.map (fun g => if g.1 = k then (g.1, bumpWindow g.2 r) else g)
  else gs ++ [(k, bumpWindow ⟨0, [], []⟩ r)]

/-- The grouping loop of `analyze_edit_activity`: every filtered revision is
routed into the bucket of its window label.  (On the filtered list
`parsed_timestamp` is always `some`; `getD 0` never fires there.) -/
def groupRevisions (windowSize : String) (filtered : List Revision) :
    List (String × Window) :=
  filtered.foldl
    (fun gs r => addToWindows gs (windowKey windowSize (r.parsed_timestamp.getD 0)) r) []

/-! ## Spike statistics -/

/-- Per-window edit counts, in bucket order. -/
def editCounts (gs : List (String × Window)) : List ℚ :=
  gs.map (fun g => (g.2.edit_count : ℚ))

/-- Per-window distinct-author counts, in bucket order. -/
def authorCounts (gs : List (String × Window)) : List ℚ :=
  gs.map (fun g => (g.2.editors.length : ℚ))

/-- `statistics.mean` (only applied to nonempty lists by the code). -/
def listMean (l : List ℚ) : ℚ := l.sum / l.length

/-- The square of `statistics.stdev`: unbiased sample variance, and `0` when
fewer than two data points exist (the code's `if len > 1 else 0` guard). -/
def sampleVariance (l : List ℚ) : ℚ :=
  if l.length ≤ 1 then 0
  else (l.map (fun x => (x - listMean l) ^ 2)).sum / ((l.length : ℚ) - 1)

/-- Exact rational decision of the code's comparison `z >= t` where
`z = d / stdev` if `stdev > 0` else `0`, and `stdev = √v`: square-free
case split so the whole pipeline stays computable.  `zGE_iff_zReal` proves
it agrees with the real-valued comparison. -/
def zGE (d t v : ℚ) : Bool :=
  if 0 < v then
    if 0 ≤ d then decide (t ≤ 0) || (decide (0 < t) && decide (t ^ 2 * v ≤ d ^ 2))
    else decide (t < 0) && decide (d ^ 2 ≤ t ^ 2 * v)
  else decide (t ≤ 0)

/-- The spike test of one window: `edit_z_score >= z_threshold or
editor_z_score >= z_threshold`. -/
def isSpikeWindow (t em ev am av : ℚ) (g : String × Window) : Bool :=
  zGE ((g.2.edit_count : ℚ) - em) t ev || zGE ((g.2.editors.length : ℚ) - am) t av

/-- The statistics part of a successful `analyze_edit_activity` result.
`edit_var`/`author_var` are the squares of the reported stdevs; `spikes`
holds the flagged windows (the code additionally orders them by their
maximal rounded z-score and renders severities — presentation that no
claim concerns and that does not change membership). -/
structure ActivityStats where
  windows : List (String × Window)
  total_revisions_analyzed : Nat
  edit_mean : ℚ
  edit_var : ℚ
  author_mean : ℚ
  author_var : ℚ
  spikes : List (String × Window)
deriving DecidableEq

/-- Outcome of `analyze_edit_activity` on a revision list (the
page-existence pass-through happens before the engine proper and is out
of model scope): either the structured insufficient-data error carrying
`total_windows`, or the computed statistics. -/
inductive ActivityResult where
  | insufficientData (total_windows : Nat)
  | ok (stats : ActivityStats)
deriving DecidableEq

/-- Core of `analyze_edit_activity`: filter, bucket, guard on fewer than 3
windows, then statistics and spike detection. -/
def analyzeEditActivity (revs : List Revision) (s e : Option Int)
    (windowSize : String) (zThreshold : ℚ) : ActivityResult :=
  let filtered := filterRevisions revs s e
  let gs := groupRevisions windowSize filtered
  if gs.length < 3 then .insufficientData gs.length
  else
    let em := listMean (editCounts gs)
    let ev := sampleVariance (editCounts gs)
    let am := listMean (authorCounts gs)
    let av := sampleVariance (authorCounts gs)
    .ok ⟨gs, filtered.length, em, ev, am, av, gs.filter (isSpikeWindow zThreshold em ev am av)⟩

/-! ## Significance scoring (`_calculate_significance_score` and helpers) -/

/-- 1. Normalized bytes change (weight 0.30):
`min(|sizediff| / max(article_size * 0.1, 100), 1.0)`. -/
def normalizedSizeChange (sizediff : Int) (article_size : Int) : ℚ :=
  min ((|sizediff| : ℚ) / max ((article_size : ℚ) * 0.1) 100) 1

/-- The scan of `_calculate_revert_score` over one candidate index list:
skip an index out of `[0, len)`, skip a candidate without a parsed
timestamp (or when the target has none), and return
`max(0, 1 - time_diff/3600)` for the first candidate with
`time_diff < 3600 and size_diff < 50`; `0.0` when none qualifies. -/
def revertScan (rev_time : Option Int) (rev_size : Int) (all : List Revision) :
    List Int → ℚ
  | [] => 0
  | i :: rest =>
    if h : 0 ≤ i ∧ i.toNat < all.length then
      let next := all.get ⟨i.toNat, h.2⟩
      match next.parsed_timestamp, rev_time with
      | some nt, some rt =>
        let time_diff : Int := |nt - rt|
        let size_diff : Int := |next.size.getD 0 - rev_size|
        if time_diff < 3600 ∧ size_diff < 50 then max 0 (1 - (time_diff : ℚ) / 3600)
        else revertScan rev_time rev_size all rest
      | _, _ => revertScan rev_time rev_size all rest
    else revertScan rev_time rev_size all rest

/-- `range(index - 5, index)` over Python ints (possibly negative; the scan
re-checks bounds exactly as the code's `if i < 0 or i >= len` does). -/
def revertCandidateIdxs (index : Nat) : List Int :=
  (List.range 5).map (fun k => (index : Int) - 5 + k)

/-- 2. Revert proximity (weight 0.25): `_calculate_revert_score`. -/
def calculateRevertScore (revision : Revision) (all : List Revision) (index : Nat) : ℚ :=
  revertScan revision.parsed_timestamp (revision.size.getD 0) all (revertCandidateIdxs index)

/-- The fixed keyword pattern list of the discussion-reference factor. -/
def discussionPatterns : List String :=
  ["talk page", "discuss", "see talk", "talk:", "consensus",
   "dispute", "controversial", "revert", "vandalism", "rv"]

/-- 4. Discussion references (weight 0.15):
`min(sum(1 for pattern if pattern in comment.lower()) * 0.2, 1.0)`.
(`str.lower` modelled per character; the patterns are ASCII.) -/
def discussionScore (comment : String) : ℚ :=
  let lc := comment.data.map Char.toLower
  min ((discussionPatterns.countP (fun p => decide (p.data <:+: lc)) : ℚ) * 0.2) 1

/-- 5. Edit-war indicator (weight 0.10): `_calculate_edit_war_score` — the
number of revisions of the whole filtered set within 24 hours of the
target in either direction (the target included), normalized by 20.
The code's unused `index` parameter is kept for signature fidelity. -/
def calculateEditWarScore (revision : Revision) (all : List Revision) (_index : Nat) : ℚ :=
  match revision.parsed_timestamp with
  | none => 0
  | some rt =>
    let rapid_edits := all.countP (fun o =>
      match o.parsed_timestamp with
      | none => false
      | some ot => decide (|ot - rt| ≤ 86400))
    min ((rapid_edits : ℚ) / 20) 1

/-- The `user_edit_counts` dict of `get_significant_revisions`, as its
lookup function: built only from truthy (present and nonempty) `user`
fields, so `""` is never a key and a user with no occurrences is absent. -/
def userEditCountsDict (filtered : List Revision) (u : String) : Option Nat :=
  if u = "" then none
  else
    let c := filtered.countP (fun r => r.user = some u)
    if c = 0 then none else some c

/-- `_calculate_significance_score`: the weighted five-factor sum, capped at
1.0.  `user_edit_counts` is the dict as a lookup; `.getD 1` is the code's
`user_edit_counts.get(user, 1)`.  This is the value the scorer computes on
records whose size delta is an integer (its only non-integer shape is the
`None` of the oldest batch revision); the scorer's raising evaluation on
such a record is `significanceScoreE`. -/
def significanceScore (revision : Revision) (all : List Revision) (index : Nat)
    (article_size : Int) (user_edit_counts : String → Option Nat) : ℚ :=
  let normalized_size_change := normalizedSizeChange (revision.sizediff.getD 0) article_size
  let revert_score := calculateRevertScore revision all index
  let user := revision.user.getD ""
  let user_edits := (user_edit_counts user).getD 1
  let experience_factor := min 1 (5 / (max user_edits 1 : ℚ))
  let discussion_score := discussionScore revision.comment
  let edit_war_score := calculateEditWarScore revision all index
  min (0.30 * normalized_size_change + 0.25 * revert_score + 0.20 * experience_factor
       + 0.15 * discussion_score + 0.10 * edit_war_score) 1

/-- The scorer as actually evaluated: `abs(revision.get('sizediff', 0))` at
the top of `_calculate_significance_score` raises `TypeError` when the
record carries `sizediff=None` — the shape the revision source writes on
the oldest revision of every fetched batch — because `dict.get` returns
the stored `None`, not the default.  `none` is that raised exception;
otherwise the scorer returns `significanceScore`. -/
def significanceScoreE (revision : Revision) (all : List Revision) (index : Nat)
    (article_size : Int) (user_edit_counts : String → Option Nat) : Option ℚ :=
  match revision.sizediff with
  | none => none
  | some _ => some (significanceScore revision all index article_size user_edit_counts)

/-! ## Ranking and thresholding (`get_significant_revisions`) -/

/-- Floor of a rational (the denominator is positive, so `Int.fdiv` of
numerator by denominator is the floor). -/
def qfloor (x : ℚ) : Int := x.num.fdiv x.den

/-- Round a rational to the nearest integer, ties to even — the rounding
`round` applies to the decimal value (the model treats the float's value
as exact). -/
def halfEvenRound (x : ℚ) : Int :=
  let f := qfloor x
  let r := x - (f : ℚ)
  if r < 1 / 2 then f
  else if 1 / 2 < r then f + 1
  else if f % 2 = 0 then f else f + 1

/-- `round(score, 3)`. -/
def round3 (q : ℚ) : ℚ := (halfEvenRound (q * 1000) : ℚ) / 1000

/-- One entry of `scored_revisions`/`top_revisions`: a fresh dict `{**rev}`
copying the revision's fields plus its `significance_score` rounded to 3
decimals (the `significance_factors` reporting view carries no scoring
information and is not modelled). -/
structure ScoredRevision where
  revision : Revision
  significance_score : ℚ
deriving DecidableEq

/-- `filtered_revisions[0].get('size', 1000)`; the `[]` branch is
unreachable behind the `len < 2` guard. -/
def currentSizeOf (filtered : List Revision) : Int :=
  match filtered with
  | [] => 1000
  | r :: _ => r.size.getD 1000

/-- The scoring loop: enumerate the filtered revisions, keep exactly those
whose (unrounded) score reaches `min_significance`, storing the rounded
score; order is the filtered (newest-first) order. -/
def scoredRevisionsOf (filtered : List Revision) (article_size : Int)
    (min_significance : ℚ) : List ScoredRevision :=
  filtered.enum.filterMap (fun p =>
    let sc := significanceScore p.2 filtered p.1 article_size (userEditCountsDict filtered)
    if min_significance ≤ sc then some ⟨p.2, round3 sc⟩ else none)

/-- The sort key order of `scored_revisions.sort(key=..., reverse=True)`:
descending in the stored (rounded) `significance_score`. -/
def scoreOrder (a b : ScoredRevision) : Prop :=
  b.significance_score ≤ a.significance_score

instance : DecidableRel scoreOrder := fun a b =>
  inferInstanceAs (Decidable (b.significance_score ≤ a.significance_score))

instance : IsTotal ScoredRevision scoreOrder :=
  ⟨fun a b => le_total b.significance_score a.significance_score⟩

instance : IsTrans ScoredRevision scoreOrder :=
  ⟨fun _ _ _ h1 h2 => le_trans h2 h1⟩

/-- The successful payload of `get_significant_revisions`. -/
structure SignificanceOk where
  total_revisions_analyzed : Nat
  significant_revisions_found : Nat
  min_significance_threshold : ℚ
  top_revisions : List ScoredRevision
deriving DecidableEq

/-- Outcome of `get_significant_revisions` on a revision list (document
existence is checked upstream of the engine).  `unexpectedError` models
the call-boundary `except` that converts an exception raised during the
computation — the `TypeError` from `abs(None)` when a filtered revision
carries a null size delta — into the caught-error dict
`{'exists': False, 'error': str(e)}`. -/
inductive SignificanceResult where
  | insufficientData
  | unexpectedError
  | ok (r : SignificanceOk)
deriving DecidableEq

/-- Core of `get_significant_revisions`: filter, guard on fewer than 2
revisions, then score the filtered revisions.  The scoring loop raises at
the first revision whose size delta is null (`significanceScoreE` is
`none` exactly there), and the boundary `except` turns that into the
unexpected-error result — reached precisely when some filtered revision
carries a null size delta.  Otherwise every filtered revision is scored,
those reaching the threshold are retained, stable-sorted descending by
the stored score (Python's sort is stable; a stable sort's output is
unique, here realized by insertion sort), and truncated to `limit`. -/
def getSignificantRevisions (revs : List Revision) (s e : Option Int)
    (limit : Nat) (min_significance : ℚ) : SignificanceResult :=
  let filtered := filterRevisions revs s e
  if filtered.length < 2 then .insufficientData
  else
    let article_size := currentSizeOf filtered
    if filtered.any (fun r => r.sizediff.isNone) then .unexpectedError
    else
      let scored := scoredRevisionsOf filtered article_size min_significance
      let sorted := List.insertionSort scoreOrder scored
      .ok ⟨filtered.length, scored.length, min_significance, sorted.take limit⟩

/-! ## Claim-side (specification) definitions -/

/-- The candidate revisions the revert scan examines, in scan order: the
entries of the newest-first sequence at indices `index-5 .. index-1`,
clipped to the valid range. -/
def revertCandidates (all : List Revision) (index : Nat) : List Revision :=
  (revertCandidateIdxs index).filterMap (fun i =>
    if h : 0 ≤ i ∧ i.toNat < all.length then some (all.get ⟨i.toNat, h.2⟩) else none)

/-- Qualification as the claim states it, with inclusive bounds: absolute
time gap `≤ 3600` seconds and absolute size difference `≤ 50` bytes. -/
def claimQualifiesIncl (rt rsize : Int) (c : Revision) : Bool :=
  decide (|c.parsed_timestamp.getD 0 - rt| ≤ 3600) && decide (|c.size.getD 0 - rsize| ≤ 50)

/-- Qualification with strict bounds, matching the code's
`time_diff < 3600 and size_diff < 50`. -/
def claimQualifiesStrict (rt rsize : Int) (c : Revision) : Bool :=
  decide (|c.parsed_timestamp.getD 0 - rt| < 3600) && decide (|c.size.getD 0 - rsize| < 50)

/-- The revert-proximity sub-score as claim C3 words it (inclusive bounds):
`max(0, 1 - time_gap/3600)` of the first qualifying candidate in scan
order, `0.0` when none qualifies. -/
def revertScoreClaimIncl (revision : Revision) (all : List Revision) (index : Nat) : ℚ :=
  let rt := revision.parsed_timestamp.getD 0
  match (revertCandidates all index).find? (claimQualifiesIncl rt (revision.size.getD 0)) with
  | some c => max 0 (1 - (((|c.parsed_timestamp.getD 0 - rt| : Int)) : ℚ) / 3600)
  | none => 0

/-- The same first-qualifying-candidate description with the bounds
corrected to the code's strict comparisons. -/
def revertScoreClaimStrict (revision : Revision) (all : List Revision) (index : Nat) : ℚ :=
  let rt := revision.parsed_timestamp.getD 0
  match (revertCandidates all index).find? (claimQualifiesStrict rt (revision.size.getD 0)) with
  | some c => max 0 (1 - (((|c.parsed_timestamp.getD 0 - rt| : Int)) : ℚ) / 3600)
  | none => 0

/-- The real-valued z-score the code compares against the threshold:
`(count - mean) / stdev` when `stdev > 0`, else `0`, with
`stdev = √variance`. -/
noncomputable def zReal (d v : ℚ) : ℝ :=
  if 0 < v then (d : ℝ) / Real.sqrt (v : ℝ) else 0

/-- Stats of an `ok` activity result (junk payload on the error branch;
used to name the payload of a result already known to be `ok`). -/
def ActivityResult.statsD : ActivityResult → ActivityStats
  | .ok st => st
  | .insufficientData n => ⟨[], n, 0, 0, 0, 0, []⟩

/-- Payload of an `ok` significance result (junk on the error branches). -/
def SignificanceResult.okD : SignificanceResult → SignificanceOk
  | .ok r => r
  | _ => ⟨0, 0, 0, []⟩

/-- The insertion-ordered distinct elements of a list of author ids: the
editor set one window accumulates. -/
def dedupFirst (l : List String) : List String := l.foldl addEditor []

/-- The grouping loop over an arbitrary key function and accumulator (the
generalization the grouping lemmas induct over;
`groupRevisions ws l = bucketFold (fun r => windowKey ws ...) [] l`). -/
def bucketFold (k : Revision → String) (acc : List (String × Window))
    (l : List Revision) : List (String × Window) :=
  l.foldl (fun gs r => addToWindows gs (k r) r) acc

/-- Well-formedness of a bucket list under key function `k`: bucket keys
are pairwise distinct (a dict!), every bucket is nonempty, its counter
counts its members, its editor set is the distinct author ids of its
members, and every member is keyed to its bucket. -/
structure GroupsWF (k : Revision → String) (gs : List (String × Window)) : Prop where
  nodupKeys : (gs.map Prod.fst).Nodup
  nonempty : ∀ g ∈ gs, g.2.revisions ≠ []
  count_eq : ∀ g ∈ gs, g.2.edit_count = g.2.revisions.length
  editors_eq : ∀ g ∈ gs, g.2.editors = dedupFirst (g.2.revisions.map authorId)
  keyed : ∀ g ∈ gs, ∀ r ∈ g.2.revisions, k r = g.1

/-! ## Concrete inputs used by witnesses and counterexamples -/

/-- A minimal in-range revision with a parseable timestamp and an author. -/
def mkRev (t : Int) (u : String) : Revision :=
  { timestamp := some t, user := some u, size := some 100, sizediff := some 0 }

/-- Three daily windows with edit counts (and distinct-author counts)
1, 2 and 9: means 4, sample variances 19. -/
def revsThreeDays : List Revision :=
  [mkRev 0 "u1",
   mkRev 86400 "u2", mkRev 86500 "u3",
   mkRev 172800 "u4", mkRev 172900 "u5", mkRev 173000 "u6", mkRev 173100 "u7",
   mkRev 173200 "u8", mkRev 173300 "u9", mkRev 173400 "u10", mkRev 173500 "u11",
   mkRev 173600 "u12"]

/-- Newest revision of the ranking counterexample: raw score
`0.3 * 999/1000 + 0.2 + 0.1 * 2/20 = 0.5097`, rounded `0.510`. -/
def cexNewest : Revision :=
  { timestamp := some 7200, size := some 10000, sizediff := some (-999) }

/-- Older revision of the ranking counterexample: raw score
`0.3 + 0.2 + 0.01 = 0.51`, rounded `0.510` — strictly larger raw score,
same rounded score. -/
def cexOlder : Revision :=
  { timestamp := some 0, size := some 500, sizediff := some 1000 }

/-- An oldest-of-batch revision as the revision source actually shapes it:
the `sizediff` key holds `None`. -/
def cexNullOldest : Revision :=
  { timestamp := some 0, size := some 500, sizediff := none }

/-- Target of the revert-boundary counterexample (index 1, newest-first). -/
def cexTarget : Revision :=
  { timestamp := some 0, size := some 1000, parsed_timestamp := some 0 }

/-- More recent neighbour of the target: time gap 1800 s, size difference
exactly 50 bytes. -/
def cexNeighbour : Revision :=
  { timestamp := some 1800, size := some 1050, parsed_timestamp := some 1800 }

/-! ## Bounds of the five sub-scores -/

theorem normalizedSizeChange_nonneg (sd article_size : Int) :
    0 ≤ normalizedSizeChange sd article_size := by
  unfold normalizedSizeChange
  refine le_min (div_nonneg ?_ ?_) zero_le_one
  · exact_mod_cast abs_nonneg sd
  · exact le_trans (by norm_num) (le_max_right ((article_size : ℚ) * 0.1) 100)

theorem normalizedSizeChange_le_one (sd article_size : Int) :
    normalizedSizeChange sd article_size ≤ 1 :=
  min_le_right _ _

theorem revertScan_nonneg (rt : Option Int) (rsize : Int) (all : List Revision) :
    ∀ is : List Int, 0 ≤ revertScan rt rsize all is := by
  intro is
  induction is with
  | nil => simp [revertScan]
  | cons i rest ih =>
    unfold revertScan
    split
    · dsimp only
      split
      · split
        · exact le_max_left 0 _
        · exact ih
      · exact ih
    · exact ih

theorem max_one_sub_div_le_one {td : Int} (h : 0 ≤ td) :
    max (0 : ℚ) (1 - (td : ℚ) / 3600) ≤ 1 := by
  refine max_le (by norm_num) ?_
  have h1 : (0 : ℚ) ≤ (td : ℚ) := by exact_mod_cast h
  have h2 : (0 : ℚ) ≤ (td : ℚ) / 3600 := by positivity
  linarith

theorem revertScan_le_one (rt : Option Int) (rsize : Int) (all : List Revision) :
    ∀ is : List Int, revertScan rt rsize all is ≤ 1 := by
  intro is
  induction is with
  | nil => simp [revertScan]
  | cons i rest ih =>
    unfold revertScan
    split
    · dsimp only
      split
      · split
        · exact max_one_sub_div_le_one (abs_nonneg _)
        · exact ih
      · exact ih
    · exact ih

theorem calculateRevertScore_nonneg (revision : Revision) (all : List Revision) (index : Nat) :
    0 ≤ calculateRevertScore revision all index :=
  revertScan_nonneg _ _ _ _

theorem calculateRevertScore_le_one (revision : Revision) (all : List Revision) (index : Nat) :
    calculateRevertScore revision all index ≤ 1 :=
  revertScan_le_one _ _ _ _

theorem calculateEditWarScore_nonneg (revision : Revision) (all : List Revision) (index : Nat) :
    0 ≤ calculateEditWarScore revision all index := by
  unfold calculateEditWarScore
  split
  · exact le_refl 0
  · exact le_min (by positivity) zero_le_one

theorem calculateEditWarScore_le_one (revision : Revision) (all : List Revision) (index : Nat) :
    calculateEditWarScore revision all index ≤ 1 := by
  unfold calculateEditWarScore
  split
  · exact zero_le_one
  · exact min_le_right _ _

theorem discussionScore_nonneg (comment : String) : 0 ≤ discussionScore comment := by
  unfold discussionScore
  exact le_min (by positivity) zero_le_one

theorem discussionScore_le_one (comment : String) : discussionScore comment ≤ 1 :=
  min_le_right _ _

theorem experienceFactor_nonneg (ue : Nat) : 0 ≤ min (1 : ℚ) (5 / (max ue 1 : ℚ)) :=
  le_min zero_le_one (by positivity)

theorem experienceFactor_le_one (ue : Nat) : min (1 : ℚ) (5 / (max ue 1 : ℚ)) ≤ 1 :=
  min_le_left _ _

/-- C2: for every revision record, revision sequence, position index,
document size (including 0 and even negative junk) and author edit-count
dict, the composite significance score lies in `[0, 1]`: each of the five
sub-scores is in `[0, 1]`, so the weighted sum (weights summing to 1) is
too, and the final clamp keeps it there. -/
theorem C2_score_bounded (revision : Revision) (all : List Revision) (index : Nat)
    (article_size : Int) (user_edit_counts : String → Option Nat) :
    0 ≤ significanceScore revision all index article_size user_edit_counts ∧
    significanceScore revision all index article_size user_edit_counts ≤ 1 := by
  constructor
  · refine le_min ?_ zero_le_one
    refine add_nonneg (add_nonneg (add_nonneg (add_nonneg ?_ ?_) ?_) ?_) ?_
    · exact mul_nonneg (by norm_num) (normalizedSizeChange_nonneg _ _)
    · exact mul_nonneg (by norm_num) (calculateRevertScore_nonneg _ _ _)
    · exact mul_nonneg (by norm_num) (experienceFactor_nonneg _)
    · exact mul_nonneg (by norm_num) (discussionScore_nonneg _)
    · exact mul_nonneg (by norm_num) (calculateEditWarScore_nonneg _ _ _)
  · exact min_le_right _ _

/-! ## The revert scan returns the first strictly-qualifying candidate -/

theorem revertScan_eq_findStrict (rt rsize : Int) (all : List Revision)
    (hall : ∀ r ∈ all, r.parsed_timestamp.isSome) :
    ∀ is : List Int,
      revertScan (some rt) rsize all is =
        (match (is.filterMap (fun i =>
            if h : 0 ≤ i ∧ i.toNat < all.length then some (all.get ⟨i.toNat, h.2⟩)
            else none)).find? (claimQualifiesStrict rt rsize) with
         | some c => max 0 (1 - (((|c.parsed_timestamp.getD 0 - rt| : Int)) : ℚ) / 3600)
         | none => 0) := by
  intro is
  induction is with
  | nil => simp [revertScan]
  | cons i rest ih =>
    by_cases h : 0 ≤ i ∧ i.toNat < all.length
    · obtain ⟨nt, hnt⟩ := Option.isSome_iff_exists.mp (hall _ (all.get_mem i.toNat h.2))
      have hq : claimQualifiesStrict rt rsize (all.get ⟨i.toNat, h.2⟩) =
          (decide (|nt - rt| < 3600) && decide (|(all.get ⟨i.toNat, h.2⟩).size.getD 0 - rsize| < 50)) := by
        simp only [claimQualifiesStrict, hnt, Option.getD_some]
      rw [List.filterMap_cons, dif_pos h]
      unfold revertScan
      rw [dif_pos h]
      dsimp only
      rw [hnt]
      dsimp only
      by_cases hcond : |nt - rt| < 3600 ∧ |(all.get ⟨i.toNat, h.2⟩).size.getD 0 - rsize| < 50
      · rw [if_pos hcond,
          List.find?_cons_of_pos _ (by rw [hq]; simp only [Bool.and_eq_true, decide_eq_true_eq]; exact hcond)]
        simp only [List.get_eq_getElem] at hnt
        simp [hnt]
      · rw [if_neg hcond,
          List.find?_cons_of_neg _ (by rw [hq]; simpa using hcond)]
        exact ih
    · rw [List.filterMap_cons, dif_neg h]
      unfold revertScan
      rw [dif_neg h]
      exact ih

/-- C3 (amended): for every revision of the filtered sequence (all parsed
timestamps present), the revert-proximity sub-score scans the candidates
at indices `index-5 .. index-1` in order, a candidate qualifies exactly
when its time gap is strictly below 3600 seconds and its size difference
strictly below 50 bytes, and the score is `max(0, 1 - gap/3600)` of the
first qualifying candidate, else 0. -/
theorem C3_revert_proximity_strict (revision : Revision) (all : List Revision) (index : Nat)
    (hrev : revision.parsed_timestamp.isSome)
    (hall : ∀ r ∈ all, r.parsed_timestamp.isSome) :
    calculateRevertScore revision all index = revertScoreClaimStrict revision all index := by
  obtain ⟨rt, hrt⟩ := Option.isSome_iff_exists.mp hrev
  unfold calculateRevertScore revertScoreClaimStrict revertCandidates
  rw [hrt]
  exact revertScan_eq_findStrict rt (revision.size.getD 0) all hall (revertCandidateIdxs index)

theorem C3_revert_proximity_strict_witness :
    calculateRevertScore cexTarget [cexNeighbour, cexTarget] 1 =
      revertScoreClaimStrict cexTarget [cexNeighbour, cexTarget] 1 :=
  C3_revert_proximity_strict cexTarget [cexNeighbour, cexTarget] 1 (by decide) (by decide)

attribute [local semireducible] Rat.add Rat.mul Rat.inv Rat.sub Rat.ofScientific in
/-- C3 as stated is false on the code: with a candidate at time gap 1800 s
and size difference exactly 50 bytes, the claim's inclusive bound says the
candidate qualifies and the sub-score is `1/2`, but the code's strict
comparison `size_diff < 50` rejects it and returns `0.0`. -/
theorem C3_inclusive_bounds_counterexample :
    revertScoreClaimIncl cexTarget [cexNeighbour, cexTarget] 1 = 1 / 2 ∧
    calculateRevertScore cexTarget [cexNeighbour, cexTarget] 1 = 0 := by decide

/-- C7: for every revision of the filtered set (all parsed timestamps
present), the edit-war sub-score is `min(count / 20, 1)` where `count` is
the number of revisions of the entire filtered set whose timestamp lies
within 86400 seconds of the target's in either direction; the target
itself is among the counted revisions whenever it belongs to the set. -/
theorem C7_edit_war_density (revision : Revision) (all : List Revision) (index : Nat) (rt : Int)
    (hrt : revision.parsed_timestamp = some rt)
    (hall : ∀ r ∈ all, r.parsed_timestamp.isSome) :
    calculateEditWarScore revision all index =
      min ((all.countP (fun o => decide (|o.parsed_timestamp.getD 0 - rt| ≤ 86400)) : ℚ) / 20) 1 ∧
    (revision ∈ all →
      0 < all.countP (fun o => decide (|o.parsed_timestamp.getD 0 - rt| ≤ 86400))) := by
  constructor
  · unfold calculateEditWarScore
    rw [hrt]
    dsimp only
    have hc : List.countP (fun o =>
          match o.parsed_timestamp with
          | none => false
          | some ot => decide (|ot - rt| ≤ 86400)) all =
        List.countP (fun o => decide (|o.parsed_timestamp.getD 0 - rt| ≤ 86400)) all := by
      refine List.countP_congr ?_
      intro o ho
      obtain ⟨ot, hot⟩ := Option.isSome_iff_exists.mp (hall o ho)
      simp [hot]
    rw [hc]
  · intro hmem
    refine List.countP_pos.mpr ⟨revision, hmem, ?_⟩
    simp [hrt]

theorem C7_edit_war_density_witness :
    calculateEditWarScore cexTarget [cexNeighbour, cexTarget] 1 =
      min (([cexNeighbour, cexTarget].countP
        (fun o => decide (|o.parsed_timestamp.getD 0 - 0| ≤ 86400)) : ℚ) / 20) 1 :=
  (C7_edit_war_density cexTarget [cexNeighbour, cexTarget] 1 0 rfl (by decide)).1

theorem annotateRev_eq (s e : Option Int) (r : Revision) :
    annotateRev s e r =
      if keptRev s e r then { r with parsed_timestamp := r.timestamp } else r := by
  unfold annotateRev keptRev
  cases ht : r.timestamp with
  | none => simp
  | some t => by_cases h : inRange s e t <;> simp [h, ht]

/-- C8 (amended): the filtering loop of both operations does mutate the
analyzed revision records: exactly the records whose timestamp parses and
lies in range receive the derived `parsed_timestamp` field in place.  Every
originally supplied field (`revid`, `timestamp`, `user`, `size`,
`sizediff`, `comment`) of every record is unchanged, out-of-range and
unparseable records are untouched entirely, and computed scores are
attached only to fresh copies (`{**rev, ...}`), never to the records. -/
theorem C8_mutation_frame (revs : List Revision) (s e : Option Int) :
    (postStateRevisions revs s e).length = revs.length ∧
    (∀ i r r', revs.get? i = some r → (postStateRevisions revs s e).get? i = some r' →
      (r'.revid = r.revid ∧ r'.timestamp = r.timestamp ∧ r'.user = r.user ∧
       r'.size = r.size ∧ r'.sizediff = r.sizediff ∧ r'.comment = r.comment) ∧
      (keptRev s e r = true → r'.parsed_timestamp = r.timestamp) ∧
      (keptRev s e r = false → r' = r)) := by
  constructor
  · exact List.length_map revs _
  · intro i r r' hr hr'
    rw [postStateRevisions, List.get?_map, hr] at hr'
    have hr'' : r' = annotateRev s e r := by
      cases hr'
      rfl
    subst hr''
    rw [annotateRev_eq]
    by_cases hk : keptRev s e r = true
    · rw [if_pos hk]
      refine ⟨⟨rfl, rfl, rfl, rfl, rfl, rfl⟩, fun _ => rfl, fun hf => ?_⟩
      rw [hk] at hf
      cases hf
    · rw [if_neg hk]
      refine ⟨⟨rfl, rfl, rfl, rfl, rfl, rfl⟩, fun htr => absurd htr hk, fun _ => rfl⟩

theorem C8_mutation_frame_witness :
    (postStateRevisions [cexNewest] none none).length = [cexNewest].length ∧
    (∀ r r', [cexNewest].get? 0 = some r →
      (postStateRevisions [cexNewest] none none).get? 0 = some r' →
      r'.timestamp = r.timestamp) :=
  ⟨(C8_mutation_frame [cexNewest] none none).1,
   fun r r' hr hr' => ((C8_mutation_frame [cexNewest] none none).2 0 r r' hr hr').1.2.1⟩

/-- C8 as stated is false on the code: the filtering loop executes
`rev['parsed_timestamp'] = rev_time` on the caller's records, so after an
operation runs, a parseable in-range revision record differs from its
pre-call value (it gained the `parsed_timestamp` key). -/
theorem C8_parsed_timestamp_mutation_counterexample :
    postStateRevisions [{ timestamp := some 5 : Revision }] none none ≠
      [{ timestamp := some 5 : Revision }] := by decide

/-! ## Window labels: day fallback and week/day distinctness -/

theorem digitChar_ne_k {x : Nat} (h : x < 10) : Nat.digitChar x ≠ 'k' := by
  interval_cases x <;> decide

theorem dayKey_data_getLast (t : Int) :
    (dayKey t).data.getLast? =
      some (Nat.digitChar ((civilFromDays (daysFromEpoch t)).2.2.toNat % 10)) := by
  unfold dayKey pad4 pad2
  simp [List.getLast?_append]

theorem weekKey_data_getLast (t : Int) :
    (weekKey t).data.getLast? = some 'k' := by
  unfold weekKey pad4 pad2
  simp [List.getLast?_append]

/-- C9: an unrecognized window-size string falls back to day bucketing
(identical labels, policy not error), and a weekly label is never equal to
any daily label: the weekly label ends in the `-week` tag's `'k'`, a daily
label in a decimal digit. -/
theorem C9_window_fallback_and_week_labels :
    (∀ ws : String, ws ≠ "day" → ws ≠ "week" → ws ≠ "month" →
      ∀ t : Int, windowKey ws t = windowKey "day" t) ∧
    (∀ t u : Int, windowKey "week" t ≠ windowKey "day" u) := by
  constructor
  · intro ws h1 h2 h3 t
    simp [windowKey, h1, h2, h3]
  · intro t u h
    have h' : (weekKey t).data.getLast? = (dayKey u).data.getLast? := by
      have : windowKey "week" t = weekKey t := by simp [windowKey]
      rw [this] at h
      have hd : windowKey "day" u = dayKey u := by simp [windowKey]
      rw [hd] at h
      rw [h]
    rw [weekKey_data_getLast, dayKey_data_getLast] at h'
    have := digitChar_ne_k (Nat.mod_lt _ (by norm_num) :
      (civilFromDays (daysFromEpoch u)).2.2.toNat % 10 < 10)
    exact this (Option.some_injective _ h').symm

theorem C9_window_fallback_and_week_labels_witness :
    windowKey "fortnight" 0 = windowKey "day" 0 ∧
    windowKey "week" 1718000000 ≠ windowKey "day" 1718000000 :=
  ⟨C9_window_fallback_and_week_labels.1 "fortnight" (by decide) (by decide) (by decide) 0,
   C9_window_fallback_and_week_labels.2 1718000000 1718000000⟩

/-! ## Invariants of the grouping fold -/

theorem update_eq_self {gs : List (String × Window)} {kk : String}
    (h : kk ∉ gs.map Prod.fst) (f : String × Window → String × Window) :
    gs.map (fun g => if g.1 = kk then f g else g) = gs := by
  induction gs with
  | nil => rfl
  | cons g0 gs ih =>
    simp only [List.map_cons, List.mem_cons, not_or] at h
    rw [List.map_cons, if_neg (fun hx => h.1 hx.symm), ih h.2]

theorem addToWindows_decomp (gs : List (String × Window)) (kk : String) (r : Revision)
    (hnodup : (gs.map Prod.fst).Nodup) (hmem : kk ∈ gs.map Prod.fst) :
    ∃ l₁ g l₂, gs = l₁ ++ g :: l₂ ∧ g.1 = kk ∧
      kk ∉ l₁.map Prod.fst ∧ kk ∉ l₂.map Prod.fst ∧
      addToWindows gs kk r = l₁ ++ (kk, bumpWindow g.2 r) :: l₂ := by
  induction gs with
  | nil => simp at hmem
  | cons g0 gs ih =>
    have hany : (g0 :: gs).any (fun g => g.1 = kk) = true := by
      simp only [List.any_eq_true, decide_eq_true_eq]
      simp only [List.mem_map] at hmem
      obtain ⟨g, hg, hgk⟩ := hmem
      exact ⟨g, hg, hgk⟩
    by_cases hg0 : g0.1 = kk
    · refine ⟨[], g0, gs, by simp, hg0, by simp, ?_, ?_⟩
      · simp only [List.map_cons, List.nodup_cons] at hnodup
        rw [← hg0]
        exact hnodup.1
      · unfold addToWindows
        rw [if_pos hany]
        simp only [List.map_cons, if_pos hg0]
        have h1 : kk ∉ gs.map Prod.fst := by
          simp only [List.map_cons, List.nodup_cons] at hnodup
          rw [← hg0]
          exact hnodup.1
        rw [update_eq_self h1, hg0]
        rfl
    · have hmem' : kk ∈ gs.map Prod.fst := by
        simp only [List.map_cons, List.mem_cons] at hmem
        rcases hmem with h | h
        · exact absurd h.symm hg0
        · exact h
      have hnodup' : (gs.map Prod.fst).Nodup := by
        simp only [List.map_cons, List.nodup_cons] at hnodup
        exact hnodup.2
      obtain ⟨l₁, g, l₂, hgs, hgk, hl₁, hl₂, hadd⟩ := ih hnodup' hmem'
      refine ⟨g0 :: l₁, g, l₂, by rw [hgs]; rfl, hgk, ?_, hl₂, ?_⟩
      · simp only [List.map_cons, List.mem_cons, not_or]
        exact ⟨fun hx => hg0 hx.symm, hl₁⟩
      · have hany' : gs.any (fun g => g.1 = kk) = true := by
          simp only [List.any_eq_true, decide_eq_true_eq]
          simp only [List.mem_map] at hmem'
          obtain ⟨g', hg', hk'⟩ := hmem'
          exact ⟨g', hg', hk'⟩
        unfold addToWindows
        rw [if_pos hany]
        simp only [List.map_cons, if_neg hg0]
        have htail : gs.map (fun g => if g.1 = kk then (g.1, bumpWindow g.2 r) else g) =
            l₁ ++ (kk, bumpWindow g.2 r) :: l₂ := by
          have : addToWindows gs kk r =
              gs.map (fun g => if g.1 = kk then (g.1, bumpWindow g.2 r) else g) := by
            unfold addToWindows
            rw [if_pos hany']
          rw [← this, hadd]
        rw [htail]
        rfl

theorem addToWindows_not_mem (gs : List (String × Window)) (kk : String) (r : Revision)
    (hmem : kk ∉ gs.map Prod.fst) :
    addToWindows gs kk r = gs ++ [(kk, bumpWindow ⟨0, [], []⟩ r)] := by
  unfold addToWindows
  rw [if_neg]
  simp only [List.any_eq_true, decide_eq_true_eq]
  rintro ⟨g, hg, hgk⟩
  exact hmem (List.mem_map.mpr ⟨g, hg, hgk⟩)

theorem dedupFirst_append_singleton (l : List String) (a : String) :
    dedupFirst (l ++ [a]) = addEditor (dedupFirst l) a := by
  simp [dedupFirst, List.foldl_append]

theorem groupsWF_nil (k : Revision → String) : GroupsWF k [] :=
  ⟨List.nodup_nil, by simp, by simp, by simp, by simp⟩

theorem groupsWF_addToWindows {k : Revision → String} {gs : List (String × Window)}
    (h : GroupsWF k gs) (r : Revision) : GroupsWF k (addToWindows gs (k r) r) := by
  by_cases hmem : k r ∈ gs.map Prod.fst
  · obtain ⟨l₁, g, l₂, hgs, hgk, hl₁, hl₂, hadd⟩ :=
      addToWindows_decomp gs (k r) r h.nodupKeys hmem
    rw [hadd]
    have hgmem : g ∈ gs := by rw [hgs]; exact List.mem_append_right _ (List.mem_cons_self g l₂)
    have hmem_of : ∀ g' , g' ∈ l₁ ++ (k r, bumpWindow g.2 r) :: l₂ →
        g' = (k r, bumpWindow g.2 r) ∨ g' ∈ gs := by
      intro g' hg'
      rcases List.mem_append.mp hg' with h1 | h1
      · exact Or.inr (by rw [hgs]; exact List.mem_append_left _ h1)
      · rcases List.mem_cons.mp h1 with h2 | h2
        · exact Or.inl h2
        · exact Or.inr (by rw [hgs]; exact List.mem_append_right _ (List.mem_cons_of_mem _ h2))
    refine ⟨?_, ?_, ?_, ?_, ?_⟩
    · have hkeys : (l₁ ++ (k r, bumpWindow g.2 r) :: l₂).map Prod.fst =
          gs.map Prod.fst := by
        rw [hgs]
        simp [hgk]
      rw [hkeys]
      exact h.nodupKeys
    · intro g' hg'
      rcases hmem_of g' hg' with h1 | h1
      · rw [h1]
        simp [bumpWindow]
      · exact h.nonempty g' h1
    · intro g' hg'
      rcases hmem_of g' hg' with h1 | h1
      · rw [h1]
        simp [bumpWindow, h.count_eq g hgmem]
      · exact h.count_eq g' h1
    · intro g' hg'
      rcases hmem_of g' hg' with h1 | h1
      · rw [h1]
        simp only [bumpWindow, h.editors_eq g hgmem]
        rw [← dedupFirst_append_singleton]
        simp
      · exact h.editors_eq g' h1
    · intro g' hg' r' hr'
      rcases hmem_of g' hg' with h1 | h1
      · subst h1
        simp only [bumpWindow] at hr'
        rcases List.mem_append.mp hr' with h2 | h2
        · rw [h.keyed g hgmem r' h2, hgk]
        · rw [List.mem_singleton.mp h2]
      · exact h.keyed g' h1 r' hr'
  · rw [addToWindows_not_mem gs (k r) r hmem]
    have hmem_of : ∀ g', g' ∈ gs ++ [(k r, bumpWindow ⟨0, [], []⟩ r)] →
        g' ∈ gs ∨ g' = (k r, bumpWindow ⟨0, [], []⟩ r) := by
      intro g' hg'
      rcases List.mem_append.mp hg' with h1 | h1
      · exact Or.inl h1
      · exact Or.inr (List.mem_singleton.mp h1)
    refine ⟨?_, ?_, ?_, ?_, ?_⟩
    · rw [List.map_append]
      simp only [List.map_cons, List.map_nil]
      rw [List.nodup_append]
      exact ⟨h.nodupKeys, List.nodup_singleton _,
        fun a ha hb => hmem (by rwa [List.mem_singleton.mp hb] at ha)⟩
    · intro g' hg'
      rcases hmem_of g' hg' with h1 | h1
      · exact h.nonempty g' h1
      · rw [h1]
        simp [bumpWindow]
    · intro g' hg'
      rcases hmem_of g' hg' with h1 | h1
      · exact h.count_eq g' h1
      · rw [h1]
        simp [bumpWindow]
    · intro g' hg'
      rcases hmem_of g' hg' with h1 | h1
      · exact h.editors_eq g' h1
      · rw [h1]
        simp [bumpWindow, dedupFirst, addEditor]
    · intro g' hg' r' hr'
      rcases hmem_of g' hg' with h1 | h1
      · exact h.keyed g' h1 r' hr'
      · subst h1
        simp only [bumpWindow] at hr'
        simp only [List.nil_append, List.mem_singleton] at hr'
        rw [hr']

theorem sum_editCount_addToWindows (gs : List (String × Window)) (kk : String) (r : Revision)
    (hnodup : (gs.map Prod.fst).Nodup) :
    ((addToWindows gs kk r).map (fun g => g.2.edit_count)).sum =
      (gs.map (fun g => g.2.edit_count)).sum + 1 := by
  by_cases hmem : kk ∈ gs.map Prod.fst
  · obtain ⟨l₁, g, l₂, hgs, _, _, _, hadd⟩ := addToWindows_decomp gs kk r hnodup hmem
    rw [hadd, hgs]
    simp [bumpWindow]
    omega
  · rw [addToWindows_not_mem gs kk r hmem]
    simp [bumpWindow]

theorem mem_addToWindows (gs : List (String × Window)) (kk : String) (r : Revision)
    (hnodup : (gs.map Prod.fst).Nodup) (x : Revision) :
    (∃ g ∈ addToWindows gs kk r, x ∈ g.2.revisions) ↔
      (∃ g ∈ gs, x ∈ g.2.revisions) ∨ x = r := by
  by_cases hmem : kk ∈ gs.map Prod.fst
  · obtain ⟨l₁, g, l₂, hgs, _, _, _, hadd⟩ := addToWindows_decomp gs kk r hnodup hmem
    rw [hadd, hgs]
    simp only [List.mem_append, List.mem_cons, bumpWindow]
    constructor
    · rintro ⟨g', hg', hx⟩
      rcases hg' with h1 | h1 | h1
      · exact Or.inl ⟨g', Or.inl h1, hx⟩
      · subst h1
        simp only at hx
        rcases List.mem_append.mp hx with h2 | h2
        · exact Or.inl ⟨g, Or.inr (Or.inl rfl), h2⟩
        · exact Or.inr (List.mem_singleton.mp h2)
      · exact Or.inl ⟨g', Or.inr (Or.inr h1), hx⟩
    · rintro (⟨g', hg', hx⟩ | hx)
      · rcases hg' with h1 | h1 | h1
        · exact ⟨g', Or.inl h1, hx⟩
        · refine ⟨(kk, bumpWindow g.2 r), Or.inr (Or.inl rfl), ?_⟩
          simp only [bumpWindow, List.mem_append]
          exact Or.inl (h1 ▸ hx)
        · exact ⟨g', Or.inr (Or.inr h1), hx⟩
      · exact ⟨(kk, bumpWindow g.2 r), Or.inr (Or.inl rfl), by simp [bumpWindow, hx]⟩
  · rw [addToWindows_not_mem gs kk r hmem]
    simp only [List.mem_append, List.mem_singleton]
    constructor
    · rintro ⟨g', hg', hx⟩
      rcases hg' with h1 | h1
      · exact Or.inl ⟨g', h1, hx⟩
      · subst h1
        simp only [bumpWindow, List.nil_append, List.mem_singleton] at hx
        exact Or.inr hx
    · rintro (⟨g', hg', hx⟩ | hx)
      · exact ⟨g', Or.inl hg', hx⟩
      · exact ⟨(kk, bumpWindow ⟨0, [], []⟩ r), Or.inr rfl, by simp [bumpWindow, hx]⟩

theorem keys_addToWindows (gs : List (String × Window)) (kk : String) (r : Revision)
    (hnodup : (gs.map Prod.fst).Nodup) (k' : String) :
    k' ∈ (addToWindows gs kk r).map Prod.fst ↔ k' ∈ gs.map Prod.fst ∨ k' = kk := by
  by_cases hmem : kk ∈ gs.map Prod.fst
  · obtain ⟨l₁, g, l₂, hgs, hgk, _, _, hadd⟩ := addToWindows_decomp gs kk r hnodup hmem
    rw [hadd, hgs]
    simp only [List.map_append, List.map_cons, List.mem_append, List.mem_cons, hgk]
    constructor
    · rintro (h | h | h)
      · exact Or.inl (Or.inl h)
      · exact Or.inr h
      · exact Or.inl (Or.inr (Or.inr h))
    · rintro ((h | h | h) | h)
      · exact Or.inl h
      · exact Or.inr (Or.inl h)
      · exact Or.inr (Or.inr h)
      · exact Or.inr (Or.inl h)
  · rw [addToWindows_not_mem gs kk r hmem]
    simp

theorem bucketFold_cons (k : Revision → String) (acc : List (String × Window))
    (r : Revision) (l : List Revision) :
    bucketFold k acc (r :: l) = bucketFold k (addToWindows acc (k r) r) l := rfl

theorem groupsWF_bucketFold (k : Revision → String) (acc : List (String × Window))
    (hacc : GroupsWF k acc) (l : List Revision) : GroupsWF k (bucketFold k acc l) := by
  induction l generalizing acc with
  | nil => exact hacc
  | cons r l ih =>
    rw [bucketFold_cons]
    exact ih _ (groupsWF_addToWindows hacc r)

theorem sum_editCount_bucketFold (k : Revision → String) (acc : List (String × Window))
    (hacc : GroupsWF k acc) (l : List Revision) :
    ((bucketFold k acc l).map (fun g => g.2.edit_count)).sum =
      (acc.map (fun g => g.2.edit_count)).sum + l.length := by
  induction l generalizing acc with
  | nil => simp [bucketFold]
  | cons r l ih =>
    rw [bucketFold_cons, ih _ (groupsWF_addToWindows hacc r),
      sum_editCount_addToWindows acc (k r) r hacc.nodupKeys]
    simp
    omega

theorem mem_bucketFold (k : Revision → String) (acc : List (String × Window))
    (hacc : GroupsWF k acc) (l : List Revision) (x : Revision) :
    (∃ g ∈ bucketFold k acc l, x ∈ g.2.revisions) ↔
      (∃ g ∈ acc, x ∈ g.2.revisions) ∨ x ∈ l := by
  induction l generalizing acc with
  | nil => simp [bucketFold]
  | cons r l ih =>
    rw [bucketFold_cons, ih _ (groupsWF_addToWindows hacc r),
      mem_addToWindows acc (k r) r hacc.nodupKeys]
    simp only [List.mem_cons]
    exact or_assoc

theorem keys_bucketFold (k : Revision → String) (acc : List (String × Window))
    (hacc : GroupsWF k acc) (l : List Revision) (k' : String) :
    k' ∈ (bucketFold k acc l).map Prod.fst ↔ k' ∈ acc.map Prod.fst ∨ k' ∈ l.map k := by
  induction l generalizing acc with
  | nil => simp [bucketFold]
  | cons r l ih =>
    rw [bucketFold_cons, ih _ (groupsWF_addToWindows hacc r),
      keys_addToWindows acc (k r) r hacc.nodupKeys]
    simp only [List.map_cons, List.mem_cons]
    exact or_assoc

theorem length_groupRevisions (ws : String) (l : List Revision) :
    (groupRevisions ws l).length =
      (l.map (fun r => windowKey ws (r.parsed_timestamp.getD 0))).dedup.length := by
  have hrw : groupRevisions ws l =
      bucketFold (fun r => windowKey ws (r.parsed_timestamp.getD 0)) [] l := rfl
  set k : Revision → String := fun r => windowKey ws (r.parsed_timestamp.getD 0) with hk
  have hWF : GroupsWF k (bucketFold k [] l) := groupsWF_bucketFold k [] (groupsWF_nil k) l
  have hkeys : ∀ k', k' ∈ (bucketFold k [] l).map Prod.fst ↔ k' ∈ l.map k := by
    intro k'
    rw [keys_bucketFold k [] (groupsWF_nil k) l k']
    simp
  rw [hrw]
  have h1 : (bucketFold k [] l).length = ((bucketFold k [] l).map Prod.fst).length :=
    (List.length_map _ _).symm
  rw [h1, ← List.toFinset_card_of_nodup hWF.nodupKeys, ← List.card_toFinset]
  congr 1
  ext a
  simp only [List.mem_toFinset]
  exact hkeys a

/-- C5: the activity analysis returns the structured insufficient-data
error exactly when fewer than 3 distinct windows exist after aggregation;
with 3 or more distinct windows it returns the computed statistics. -/
theorem C5_insufficient_windows (revs : List Revision) (s e : Option Int) (ws : String)
    (t : ℚ) :
    ((∃ n, analyzeEditActivity revs s e ws t = .insufficientData n) ↔
      ((filterRevisions revs s e).map
        (fun r => windowKey ws (r.parsed_timestamp.getD 0))).dedup.length < 3) ∧
    (3 ≤ ((filterRevisions revs s e).map
        (fun r => windowKey ws (r.parsed_timestamp.getD 0))).dedup.length →
      ∃ st, analyzeEditActivity revs s e ws t = .ok st) := by
  have hlen := length_groupRevisions ws (filterRevisions revs s e)
  by_cases h : (groupRevisions ws (filterRevisions revs s e)).length < 3
  · have hres : analyzeEditActivity revs s e ws t =
        .insufficientData (groupRevisions ws (filterRevisions revs s e)).length := by
      simp only [analyzeEditActivity]
      rw [if_pos h]
    refine ⟨⟨fun _ => ?_, fun _ => ⟨_, hres⟩⟩, fun h3 => ?_⟩
    · rw [← hlen]
      exact h
    · rw [← hlen] at h3
      omega
  · have hres : ∃ st, analyzeEditActivity revs s e ws t = .ok st := by
      cases hca : analyzeEditActivity revs s e ws t with
      | insufficientData n =>
        simp only [analyzeEditActivity] at hca
        rw [if_neg h] at hca
        simp at hca
      | ok st => exact ⟨st, rfl⟩
    refine ⟨⟨?_, fun hlt => ?_⟩, fun _ => hres⟩
    · rintro ⟨n, hn⟩
      obtain ⟨st, hst⟩ := hres
      rw [hn] at hst
      cases hst
    · rw [← hlen] at hlt
      exact absurd hlt h

theorem C5_insufficient_windows_witness :
    ∃ st, analyzeEditActivity revsThreeDays none none "day" 2 = .ok st :=
  (C5_insufficient_windows revsThreeDays none none "day" 2).2 (by decide)

/-- C6: the time-window aggregation partitions the filtered revision set:
every filtered revision belongs to exactly one window, the window
edit-counts sum to the number of filtered revisions, and no window with
zero revisions appears. -/
theorem C6_window_partition (revs : List Revision) (s e : Option Int) (ws : String) :
    (∀ r ∈ filterRevisions revs s e,
      ∃! g, g ∈ groupRevisions ws (filterRevisions revs s e) ∧ r ∈ g.2.revisions) ∧
    ((groupRevisions ws (filterRevisions revs s e)).map (fun g => g.2.edit_count)).sum =
      (filterRevisions revs s e).length ∧
    (∀ g ∈ groupRevisions ws (filterRevisions revs s e), g.2.edit_count ≠ 0) := by
  set k : Revision → String := fun r => windowKey ws (r.parsed_timestamp.getD 0) with hk
  have hrw : groupRevisions ws (filterRevisions revs s e) =
      bucketFold k [] (filterRevisions revs s e) := rfl
  have hWF : GroupsWF k (bucketFold k [] (filterRevisions revs s e)) :=
    groupsWF_bucketFold k [] (groupsWF_nil k) (filterRevisions revs s e)
  refine ⟨?_, ?_, ?_⟩
  · intro r hr
    have hex : ∃ g ∈ bucketFold k [] (filterRevisions revs s e), r ∈ g.2.revisions :=
      (mem_bucketFold k [] (groupsWF_nil k) (filterRevisions revs s e) r).mpr
        (by simp [hr])
    obtain ⟨g, hg, hrg⟩ := hex
    rw [hrw]
    refine ⟨g, ⟨hg, hrg⟩, ?_⟩
    rintro g' ⟨hg', hrg'⟩
    have h1 : k r = g.1 := hWF.keyed g hg r hrg
    have h2 : k r = g'.1 := hWF.keyed g' hg' r hrg'
    exact List.inj_on_of_nodup_map hWF.nodupKeys hg' hg (by rw [← h1, ← h2])
  · rw [hrw]
    have := sum_editCount_bucketFold k [] (groupsWF_nil k) (filterRevisions revs s e)
    simpa using this
  · intro g hg
    rw [hrw] at hg
    rw [hWF.count_eq g hg]
    simp only [ne_eq, List.length_eq_zero]
    exact hWF.nonempty g hg

theorem C6_window_partition_witness :
    (∃! g, g ∈ groupRevisions "day" (filterRevisions revsThreeDays none none) ∧
      { mkRev 0 "u1" with parsed_timestamp := some 0 } ∈ g.2.revisions) ∧
    ((groupRevisions "day" (filterRevisions revsThreeDays none none)).map
      (fun g => g.2.edit_count)).sum = (filterRevisions revsThreeDays none none).length :=
  ⟨(C6_window_partition revsThreeDays none none "day").1
      { mkRev 0 "u1" with parsed_timestamp := some 0 } (by decide),
   (C6_window_partition revsThreeDays none none "day").2.1⟩

/-! ## Authorless revisions -/

theorem foldl_addEditor_mem (a : String) :
    ∀ (l : List String) (acc : List String), a ∈ acc →
      (∀ b ∈ l, b = a) → l.foldl addEditor acc = acc := by
  intro l
  induction l with
  | nil => intro acc _ _; rfl
  | cons b l ih =>
    intro acc hacc hall
    have hb : b = a := hall b (List.mem_cons_self b l)
    rw [List.foldl_cons]
    have : addEditor acc b = acc := by
      unfold addEditor
      rw [if_pos (hb ▸ hacc)]
    rw [this]
    exact ih acc hacc (fun c hc => hall c (List.mem_cons_of_mem b hc))

theorem dedupFirst_all_eq {l : List String} {a : String} (hne : l ≠ [])
    (hall : ∀ b ∈ l, b = a) : dedupFirst l = [a] := by
  cases l with
  | nil => exact absurd rfl hne
  | cons b l =>
    have hb : b = a := hall b (List.mem_cons_self b l)
    unfold dedupFirst
    rw [List.foldl_cons]
    have h1 : addEditor [] b = [b] := by
      unfold addEditor
      rw [if_neg (List.not_mem_nil b)]
      rfl
    rw [h1, hb]
    exact foldl_addEditor_mem a l [a] (List.mem_singleton_self a)
      (fun c hc => hall c (List.mem_cons_of_mem b hc))

/-- C10: an absent author is counted under the single identifier
`'Unknown'` in activity analysis — a window whose members are all
authorless has exactly the one distinct editor `'Unknown'` — and in
significance scoring an authorless revision gets author edit count 1
(the `dict.get(user, 1)` default, as `''` is never a dict key), hence the
maximal author-experience sub-score `min(1, 5/max(1,1)) = 1.0`. -/
theorem C10_authorless_unknown :
    (∀ r : Revision, r.user = none → authorId r = "Unknown") ∧
    (∀ ws : String, ∀ filtered : List Revision,
      ∀ g ∈ groupRevisions ws filtered,
        (∀ r ∈ g.2.revisions, r.user = none) → g.2.editors = ["Unknown"]) ∧
    (∀ filtered : List Revision, ∀ rev : Revision, rev.user = none →
      (userEditCountsDict filtered (rev.user.getD "")).getD 1 = 1 ∧
      min (1 : ℚ)
        (5 / (max ((userEditCountsDict filtered (rev.user.getD "")).getD 1) 1 : ℚ)) = 1) := by
  refine ⟨?_, ?_, ?_⟩
  · intro r h
    unfold authorId
    rw [h]
    rfl
  · intro ws filtered g hg hall
    have hWF : GroupsWF (fun r => windowKey ws (r.parsed_timestamp.getD 0))
        (groupRevisions ws filtered) :=
      groupsWF_bucketFold _ [] (groupsWF_nil _) filtered
    rw [hWF.editors_eq g hg]
    refine dedupFirst_all_eq ?_ ?_
    · simp only [ne_eq, List.map_eq_nil]
      exact hWF.nonempty g hg
    · intro b hb
      obtain ⟨r, hr, rfl⟩ := List.mem_map.mp hb
      unfold authorId
      rw [hall r hr]
      rfl
  · intro filtered rev h
    constructor
    · simp [h, userEditCountsDict]
    · simp only [h, Option.getD_none]
      have hu : userEditCountsDict filtered "" = none := by simp [userEditCountsDict]
      rw [hu]
      norm_num

theorem C10_authorless_unknown_witness :
    authorId { user := none : Revision } = "Unknown" ∧
    ("1970-01-01", (⟨2, ["Unknown"],
      [{ timestamp := some 0, parsed_timestamp := some 0 : Revision },
       { timestamp := some 100, parsed_timestamp := some 100 : Revision }]⟩ : Window)).2.editors
        = ["Unknown"] ∧
    (userEditCountsDict [] "").getD 1 = 1 :=
  ⟨C10_authorless_unknown.1 { user := none } rfl,
   C10_authorless_unknown.2.1 "day"
     (filterRevisions [{ timestamp := some 0 }, { timestamp := some 100 }] none none)
     _ (by decide) (by decide),
   ((C10_authorless_unknown.2.2 [] { user := none } rfl).1)⟩

/-! ## Ranking: stability of the stable sort and the retained count -/

theorem filter_insertionSort_scoreValue (l : List ScoredRevision) (q : ℚ) :
    (List.insertionSort scoreOrder l).filter
      (fun sr => decide (sr.significance_score = q)) =
      l.filter (fun sr => decide (sr.significance_score = q)) := by
  set p : ScoredRevision → Bool := fun sr => decide (sr.significance_score = q) with hp
  have hscore : ∀ sr : ScoredRevision, p sr = true → sr.significance_score = q := by
    intro sr h
    have := of_decide_eq_true (hp ▸ h)
    exact this
  have hc_pairwise : (l.filter p).Pairwise scoreOrder := by
    refine List.pairwise_of_forall_mem_list ?_
    intro a ha b hb
    have hqa := hscore a (List.of_mem_filter ha)
    have hqb := hscore b (List.of_mem_filter hb)
    unfold scoreOrder
    rw [hqa, hqb]
  have hsub : (l.filter p).Sublist (List.insertionSort scoreOrder l) :=
    List.sublist_insertionSort hc_pairwise (List.filter_sublist l)
  have hfix : (l.filter p).filter p = l.filter p :=
    List.filter_eq_self.mpr (fun a ha => List.of_mem_filter ha)
  have hsub2 : (l.filter p).Sublist ((List.insertionSort scoreOrder l).filter p) := by
    have := hsub.filter p
    rwa [hfix] at this
  have hperm : ((List.insertionSort scoreOrder l).filter p).Perm (l.filter p) :=
    (List.perm_insertionSort scoreOrder l).filter p
  exact (hsub2.eq_of_length hperm.length_eq.symm).symm

theorem length_filterMap_ite {α β : Type} (l : List α) (f : α → β) (P : α → Prop)
    [DecidablePred P] :
    (l.filterMap (fun x => if P x then some (f x) else none)).length =
      l.countP (fun x => decide (P x)) := by
  induction l with
  | nil => rfl
  | cons a l ih =>
    by_cases h : P a
    · rw [List.filterMap_cons, if_pos h]
      simp [List.countP_cons, h, ih]
    · rw [List.filterMap_cons, if_neg h]
      simp [List.countP_cons, h, ih]

/-- `significanceScoreE` raises exactly on the null-size-delta records. -/
theorem significanceScoreE_none_iff (revision : Revision) (all : List Revision)
    (index : Nat) (article_size : Int) (user_edit_counts : String → Option Nat) :
    significanceScoreE revision all index article_size user_edit_counts = none ↔
      revision.sizediff = none := by
  unfold significanceScoreE
  cases revision.sizediff <;> simp

/-- C1 (amended): the significance ranking fails with the insufficient-data
error exactly when fewer than 2 filtered revisions exist; with enough
revisions it fails with the caught unexpected-error result exactly when
some filtered revision carries a null size delta (the shape the revision
source gives the oldest revision of every batch; scoring it raises
`TypeError` on `abs(None)`).  Otherwise it scores every filtered revision,
retains exactly those whose raw score reaches the threshold (their number
is reported, as is the total filtered count), and returns at most `limit`
entries sorted descending by the reported score — the raw score rounded
to 3 decimals — with ties in that rounded score keeping the original
newest-first relative order (the retained list in original order is
`scoredRevisionsOf`). -/
theorem C1_ranking_contract (revs : List Revision) (s e : Option Int) (limit : Nat)
    (minSig : ℚ) :
    (getSignificantRevisions revs s e limit minSig = .insufficientData ↔
      (filterRevisions revs s e).length < 2) ∧
    (getSignificantRevisions revs s e limit minSig = .unexpectedError ↔
      (¬ (filterRevisions revs s e).length < 2 ∧
        ∃ r ∈ filterRevisions revs s e, r.sizediff = none)) ∧
    (∀ out, getSignificantRevisions revs s e limit minSig = .ok out →
      out.total_revisions_analyzed = (filterRevisions revs s e).length ∧
      out.min_significance_threshold = minSig ∧
      out.significant_revisions_found =
        (filterRevisions revs s e).enum.countP (fun p => decide (minSig ≤
          significanceScore p.2 (filterRevisions revs s e) p.1
            (currentSizeOf (filterRevisions revs s e))
            (userEditCountsDict (filterRevisions revs s e)))) ∧
      out.top_revisions.length = min limit out.significant_revisions_found ∧
      out.top_revisions.Pairwise
        (fun a b => b.significance_score ≤ a.significance_score) ∧
      (∀ q : ℚ,
        out.top_revisions.filter (fun sr => decide (sr.significance_score = q)) <+:
          (scoredRevisionsOf (filterRevisions revs s e)
            (currentSizeOf (filterRevisions revs s e)) minSig).filter
            (fun sr => decide (sr.significance_score = q))) ∧
      (∀ sr ∈ out.top_revisions,
        sr ∈ scoredRevisionsOf (filterRevisions revs s e)
          (currentSizeOf (filterRevisions revs s e)) minSig)) := by
  by_cases h2 : (filterRevisions revs s e).length < 2
  · have hres : getSignificantRevisions revs s e limit minSig = .insufficientData := by
      simp only [getSignificantRevisions]
      rw [if_pos h2]
    refine ⟨⟨fun _ => h2, fun _ => hres⟩, ⟨fun hcontra => ?_, fun hc => absurd h2 hc.1⟩, ?_⟩
    · rw [hres] at hcontra
      cases hcontra
    · intro out hout
      rw [hres] at hout
      cases hout
  · by_cases hnull : (filterRevisions revs s e).any (fun r => r.sizediff.isNone) = true
    · have hres : getSignificantRevisions revs s e limit minSig = .unexpectedError := by
        simp only [getSignificantRevisions]
        rw [if_neg h2, if_pos hnull]
      refine ⟨⟨fun hcontra => ?_, fun hlt => absurd hlt h2⟩,
        ⟨fun _ => ⟨h2, ?_⟩, fun _ => hres⟩, ?_⟩
      · rw [hres] at hcontra
        cases hcontra
      · rw [List.any_eq_true] at hnull
        obtain ⟨r, hr, hrn⟩ := hnull
        exact ⟨r, hr, Option.isNone_iff_eq_none.mp hrn⟩
      · intro out hout
        rw [hres] at hout
        cases hout
    · have hres : getSignificantRevisions revs s e limit minSig =
          .ok ⟨(filterRevisions revs s e).length,
            (scoredRevisionsOf (filterRevisions revs s e)
              (currentSizeOf (filterRevisions revs s e)) minSig).length,
            minSig,
            (List.insertionSort scoreOrder
              (scoredRevisionsOf (filterRevisions revs s e)
                (currentSizeOf (filterRevisions revs s e)) minSig)).take limit⟩ := by
        simp only [getSignificantRevisions]
        rw [if_neg h2, if_neg hnull]
      refine ⟨⟨fun hcontra => ?_, fun hlt => absurd hlt h2⟩,
        ⟨fun hcontra => ?_, fun hc => ?_⟩, ?_⟩
      · rw [hres] at hcontra
        cases hcontra
      · rw [hres] at hcontra
        cases hcontra
      · obtain ⟨-, r, hr, hrn⟩ := hc
        exact absurd (List.any_eq_true.mpr ⟨r, hr, Option.isNone_iff_eq_none.mpr hrn⟩) hnull
      · intro out hout
        rw [hres] at hout
        cases hout
        refine ⟨rfl, rfl, ?_, ?_, ?_, ?_, ?_⟩
        · exact length_filterMap_ite (filterRevisions revs s e).enum
            (fun p => (⟨p.2, round3 (significanceScore p.2 (filterRevisions revs s e) p.1
              (currentSizeOf (filterRevisions revs s e))
              (userEditCountsDict (filterRevisions revs s e)))⟩ : ScoredRevision))
            (fun p => minSig ≤ significanceScore p.2 (filterRevisions revs s e) p.1
              (currentSizeOf (filterRevisions revs s e))
              (userEditCountsDict (filterRevisions revs s e)))
        · rw [List.length_take]
          congr 1
          exact (List.perm_insertionSort scoreOrder _).length_eq
        · refine List.Pairwise.sublist (List.take_sublist limit _) ?_
          exact List.sorted_insertionSort scoreOrder _
        · intro q
          have hpre := List.IsPrefix.filter (fun sr => decide (sr.significance_score = q))
            (List.take_prefix limit (List.insertionSort scoreOrder
              (scoredRevisionsOf (filterRevisions revs s e)
                (currentSizeOf (filterRevisions revs s e)) minSig)))
          rwa [filter_insertionSort_scoreValue] at hpre
        · intro sr hsr
          have h1 : sr ∈ List.insertionSort scoreOrder
              (scoredRevisionsOf (filterRevisions revs s e)
                (currentSizeOf (filterRevisions revs s e)) minSig) :=
            (List.take_sublist limit _).subset hsr
          exact ((List.perm_insertionSort scoreOrder _).mem_iff).mp h1

attribute [local semireducible] Rat.add Rat.mul Rat.inv Rat.sub Rat.ofScientific in
theorem C1_ranking_contract_witness :
    (getSignificantRevisions [cexNewest, cexOlder] none none 50
        (1 / 2)).okD.total_revisions_analyzed =
      (filterRevisions [cexNewest, cexOlder] none none).length ∧
    (getSignificantRevisions [cexNewest, cexOlder] none none 50
        (1 / 2)).okD.min_significance_threshold = 1 / 2 :=
  ⟨((C1_ranking_contract [cexNewest, cexOlder] none none 50 (1 / 2)).2.2
      (getSignificantRevisions [cexNewest, cexOlder] none none 50 (1 / 2)).okD
      (by decide)).1,
   ((C1_ranking_contract [cexNewest, cexOlder] none none 50 (1 / 2)).2.2
      (getSignificantRevisions [cexNewest, cexOlder] none none 50 (1 / 2)).okD
      (by decide)).2.1⟩

attribute [local semireducible] Rat.add Rat.mul Rat.inv Rat.sub Rat.ofScientific in
/-- C1 as stated is false on the code in two ways.  First, the sort key is
the score rounded to 3 decimals, not the raw section-4.4 score: here both
retained revisions round to `0.510`, so the stable sort keeps the
newest-first order and the output lists the entry whose raw score `0.5097`
is strictly smaller before the entry with raw score `0.51` — not sorted
descending by the raw score.  Second, on two filtered revisions whose
oldest carries the source's `sizediff=None`, the operation returns the
caught unexpected-error result instead of computing the ranking the claim
promises. -/
theorem C1_sort_uses_rounded_score_counterexample :
    getSignificantRevisions [cexNewest, cexOlder] none none 50 (1 / 2) =
      .ok ⟨2, 2, 1 / 2,
        [⟨{ cexNewest with parsed_timestamp := some 7200 }, 51 / 100⟩,
         ⟨{ cexOlder with parsed_timestamp := some 0 }, 51 / 100⟩]⟩ ∧
    significanceScore { cexNewest with parsed_timestamp := some 7200 }
        (filterRevisions [cexNewest, cexOlder] none none) 0 10000
        (userEditCountsDict (filterRevisions [cexNewest, cexOlder] none none)) <
      significanceScore { cexOlder with parsed_timestamp := some 0 }
        (filterRevisions [cexNewest, cexOlder] none none) 1 10000
        (userEditCountsDict (filterRevisions [cexNewest, cexOlder] none none)) ∧
    getSignificantRevisions [cexNewest, cexNullOldest] none none 50 (1 / 2) =
      .unexpectedError := by
  decide

/-! ## The exact z-score comparator agrees with the real-valued one -/

theorem zGE_iff_zReal (d t v : ℚ) (hv : 0 ≤ v) :
    zGE d t v = true ↔ (t : ℝ) ≤ zReal d v := by
  unfold zGE zReal
  by_cases hvpos : 0 < v
  · rw [if_pos hvpos, if_pos hvpos]
    have hvR : (0 : ℝ) < (v : ℝ) := by exact_mod_cast hvpos
    have hsqrt : (0 : ℝ) < Real.sqrt (v : ℝ) := Real.sqrt_pos.mpr hvR
    rw [le_div_iff₀ hsqrt]
    by_cases hd : 0 ≤ d
    · rw [if_pos hd]
      by_cases ht : t ≤ 0
      · refine iff_of_true (by simp [ht]) ?_
        have h1 : (t : ℝ) * Real.sqrt (v : ℝ) ≤ 0 :=
          mul_nonpos_of_nonpos_of_nonneg (by exact_mod_cast ht) (Real.sqrt_nonneg _)
        have h2 : (0 : ℝ) ≤ (d : ℝ) := by exact_mod_cast hd
        linarith
      · push_neg at ht
        have hts : decide (t ≤ 0) = false := decide_eq_false (not_le.mpr ht)
        simp only [hts, Bool.false_or, Bool.and_eq_true, decide_eq_true_eq]
        have h1 : (0 : ℝ) ≤ (t : ℝ) * Real.sqrt (v : ℝ) :=
          mul_nonneg (le_of_lt (by exact_mod_cast ht)) (Real.sqrt_nonneg _)
        have h2 : (0 : ℝ) ≤ (d : ℝ) := by exact_mod_cast hd
        constructor
        · rintro ⟨-, hsq⟩
          have hsq' : ((t : ℝ) * Real.sqrt (v : ℝ)) ^ 2 ≤ (d : ℝ) ^ 2 := by
            rw [mul_pow, Real.sq_sqrt (le_of_lt hvR)]
            exact_mod_cast hsq
          exact (pow_le_pow_iff_left h1 h2 two_ne_zero).mp hsq'
        · intro hle
          refine ⟨ht, ?_⟩
          have hsq' : ((t : ℝ) * Real.sqrt (v : ℝ)) ^ 2 ≤ (d : ℝ) ^ 2 :=
            pow_le_pow_left h1 hle 2
          rw [mul_pow, Real.sq_sqrt (le_of_lt hvR)] at hsq'
          exact_mod_cast hsq'
    · rw [if_neg hd]
      push_neg at hd
      have hdR : (d : ℝ) < 0 := by exact_mod_cast hd
      by_cases ht : t < 0
      · have hts : decide (t < 0) = true := decide_eq_true ht
        simp only [hts, Bool.true_and, decide_eq_true_eq]
        have h1 : (0 : ℝ) ≤ -(d : ℝ) := by linarith
        have h2 : (0 : ℝ) ≤ -((t : ℝ) * Real.sqrt (v : ℝ)) := by
          have : (t : ℝ) * Real.sqrt (v : ℝ) ≤ 0 :=
            mul_nonpos_of_nonpos_of_nonneg (by exact_mod_cast le_of_lt ht)
              (Real.sqrt_nonneg _)
          linarith
        constructor
        · intro hsq
          have hsq' : (-(d : ℝ)) ^ 2 ≤ (-((t : ℝ) * Real.sqrt (v : ℝ))) ^ 2 := by
            rw [neg_sq, neg_sq, mul_pow, Real.sq_sqrt (le_of_lt hvR)]
            exact_mod_cast hsq
          have := (pow_le_pow_iff_left h1 h2 two_ne_zero).mp hsq'
          linarith
        · intro hle
          have h3 : -(d : ℝ) ≤ -((t : ℝ) * Real.sqrt (v : ℝ)) := by linarith
          have hsq' : (-(d : ℝ)) ^ 2 ≤ (-((t : ℝ) * Real.sqrt (v : ℝ))) ^ 2 :=
            pow_le_pow_left h1 h3 2
          rw [neg_sq, neg_sq, mul_pow, Real.sq_sqrt (le_of_lt hvR)] at hsq'
          exact_mod_cast hsq'
      · have hts : decide (t < 0) = false := decide_eq_false ht
        simp only [hts, Bool.false_and]
        refine iff_of_false (by simp) ?_
        intro hle
        have h1 : (0 : ℝ) ≤ (t : ℝ) * Real.sqrt (v : ℝ) :=
          mul_nonneg (by exact_mod_cast not_lt.mp ht) (Real.sqrt_nonneg _)
        linarith
  · rw [if_neg hvpos, if_neg hvpos]
    simp only [decide_eq_true_eq]
    constructor
    · intro h
      exact_mod_cast h
    · intro h
      exact_mod_cast h

theorem zGE_false_of_neg {d t v : ℚ} (hd : d < 0) (ht : 0 ≤ t) (hv : 0 < v) :
    zGE d t v = false := by
  unfold zGE
  rw [if_pos hv, if_neg (not_le.mpr hd)]
  simp [not_lt.mpr ht]

theorem sampleVariance_nonneg (l : List ℚ) : 0 ≤ sampleVariance l := by
  unfold sampleVariance
  split
  · exact le_refl 0
  · rename_i hlen
    apply div_nonneg
    · apply List.sum_nonneg
      intro x hx
      obtain ⟨y, _, rfl⟩ := List.mem_map.mp hx
      exact sq_nonneg _
    · have h2 : 2 ≤ l.length := by omega
      have : (2 : ℚ) ≤ (l.length : ℚ) := by exact_mod_cast h2
      linarith

theorem sampleVariance_pos {l : List ℚ} {x : ℚ} (hx : x ∈ l) (hne : x ≠ listMean l)
    (hlen : 2 ≤ l.length) : 0 < sampleVariance l := by
  unfold sampleVariance
  rw [if_neg (by omega)]
  apply div_pos
  · have hm : (x - listMean l) ^ 2 ∈ l.map (fun y => (y - listMean l) ^ 2) :=
      List.mem_map_of_mem _ hx
    have hnn : ∀ y ∈ l.map (fun y => (y - listMean l) ^ 2), 0 ≤ y := by
      intro y hy
      obtain ⟨z, _, rfl⟩ := List.mem_map.mp hy
      exact sq_nonneg _
    have hle := List.single_le_sum hnn _ hm
    have hpos : 0 < (x - listMean l) ^ 2 := by
      apply lt_of_le_of_ne (sq_nonneg _)
      symm
      exact pow_ne_zero 2 (sub_ne_zero.mpr hne)
    linarith
  · have : (2 : ℚ) ≤ (l.length : ℚ) := by exact_mod_cast hlen
    linarith

/-- C4 (amended): a window is flagged as a spike exactly when its edit
z-score or its author z-score (the real-valued `(count - mean)/stdev`,
`0` when the stdev vanishes) reaches the threshold; and for every
nonnegative threshold a window whose edit count and distinct-author count
both lie strictly below their respective means is never flagged. -/
theorem C4_spike_iff_upper_tail (revs : List Revision) (s e : Option Int) (ws : String)
    (t : ℚ) (st : ActivityStats)
    (hok : analyzeEditActivity revs s e ws t = .ok st) :
    (∀ g ∈ st.windows,
      (g ∈ st.spikes ↔
        ((t : ℝ) ≤ zReal ((g.2.edit_count : ℚ) - st.edit_mean) st.edit_var ∨
         (t : ℝ) ≤ zReal ((g.2.editors.length : ℚ) - st.author_mean) st.author_var))) ∧
    (0 ≤ t → ∀ g ∈ st.windows,
      (g.2.edit_count : ℚ) < st.edit_mean →
      (g.2.editors.length : ℚ) < st.author_mean →
      g ∉ st.spikes) := by
  simp only [analyzeEditActivity] at hok
  by_cases h3 : (groupRevisions ws (filterRevisions revs s e)).length < 3
  · rw [if_pos h3] at hok
    cases hok
  · rw [if_neg h3] at hok
    cases hok
    constructor
    · intro g hg
      rw [List.mem_filter]
      simp only [hg, true_and]
      unfold isSpikeWindow
      rw [Bool.or_eq_true,
        zGE_iff_zReal _ _ _ (sampleVariance_nonneg (editCounts (groupRevisions ws (filterRevisions revs s e)))),
        zGE_iff_zReal _ _ _ (sampleVariance_nonneg (authorCounts (groupRevisions ws (filterRevisions revs s e))))]
    · intro ht g hg h1 h2
      rw [List.mem_filter]
      rintro ⟨-, hspike⟩
      have hlene : 2 ≤ (editCounts (groupRevisions ws (filterRevisions revs s e))).length := by
        unfold editCounts
        rw [List.length_map]
        omega
      have hlena : 2 ≤ (authorCounts (groupRevisions ws (filterRevisions revs s e))).length := by
        unfold authorCounts
        rw [List.length_map]
        omega
      have hmeme : ((g.2.edit_count : ℚ)) ∈ editCounts (groupRevisions ws (filterRevisions revs s e)) := by
        unfold editCounts
        exact List.mem_map_of_mem _ hg
      have hmema : ((g.2.editors.length : ℚ)) ∈ authorCounts (groupRevisions ws (filterRevisions revs s e)) := by
        unfold authorCounts
        exact List.mem_map_of_mem _ hg
      have hve : 0 < sampleVariance (editCounts (groupRevisions ws (filterRevisions revs s e))) :=
        sampleVariance_pos hmeme (ne_of_lt h1) hlene
      have hva : 0 < sampleVariance (authorCounts (groupRevisions ws (filterRevisions revs s e))) :=
        sampleVariance_pos hmema (ne_of_lt h2) hlena
      unfold isSpikeWindow at hspike
      rw [zGE_false_of_neg (by linarith) ht hve, zGE_false_of_neg (by linarith) ht hva] at hspike
      cases hspike

attribute [local semireducible] Rat.add Rat.mul Rat.inv Rat.sub Rat.ofScientific in
theorem C4_spike_iff_upper_tail_witness :
    ("1970-01-01", (⟨1, ["u1"], [{ mkRev 0 "u1" with parsed_timestamp := some 0 }]⟩ : Window)) ∉
      (ActivityResult.statsD (analyzeEditActivity revsThreeDays none none "day" 2)).spikes :=
  (C4_spike_iff_upper_tail revsThreeDays none none "day" 2
      (ActivityResult.statsD (analyzeEditActivity revsThreeDays none none "day" 2))
      (by decide)).2 (by norm_num)
    ("1970-01-01", (⟨1, ["u1"], [{ mkRev 0 "u1" with parsed_timestamp := some 0 }]⟩ : Window))
    (by decide) (by decide) (by decide)

attribute [local semireducible] Rat.add Rat.mul Rat.inv Rat.sub Rat.ofScientific in
/-- C4's universally-quantified one-sided guarantee is false on the code:
with threshold `-10` on three daily windows of edit and author counts
1, 2, 9 (means 4, sample variances 19), the day-0 window lies strictly
below both means (1 < 4) yet its z-scores `-3/√19 ≈ -0.69` satisfy
`z ≥ -10`, so the window is flagged. -/
theorem C4_negative_threshold_counterexample :
    analyzeEditActivity revsThreeDays none none "day" (-10) =
      .ok (ActivityResult.statsD (analyzeEditActivity revsThreeDays none none "day" (-10))) ∧
    (("1970-01-01", (⟨1, ["u1"], [{ mkRev 0 "u1" with parsed_timestamp := some 0 }]⟩ : Window)) ∈
      (ActivityResult.statsD (analyzeEditActivity revsThreeDays none none "day" (-10))).spikes) ∧
    ((1 : ℚ) <
      (ActivityResult.statsD (analyzeEditActivity revsThreeDays none none "day" (-10))).edit_mean) ∧
    ((1 : ℚ) <
      (ActivityResult.statsD (analyzeEditActivity revsThreeDays none none "day" (-10))).author_mean) := by
  decide
